import Mathlib

/-!
# myshell.c: job registry, signal dispatch, pipelines and bounded history

A shallow embedding of `src/myshell.c`.  Linked lists become Lean lists (the
list read from the head pointer), the globals `processList`, `history_head`,
`history_tail`, `history_count` become fields of an explicit state, and every
call into the operating system or into the external line parser is answered
by an environment record, so that the theorems hold for every answer the
environment can give.  Effects that leave the process (system calls, output,
released command descriptions) are appended to a trace.  The `debug` flag only
adds diagnostic lines on stderr; those lines are not part of the trace.
-/

namespace MyShell

/-! ## Constants -/

def TERMINATED : Int := -1
def RUNNING : Int := 1
def SUSPENDED : Int := 0

def HISTLEN : Int := 10

/-- Signal numbers of `<signal.h>` on Linux (x86, ARM). -/
def SIGINT : Int := 2
def SIGCONT : Int := 18
def SIGTSTP : Int := 20

/-- Value of `__W_CONTINUED` in glibc's `<bits/waitstatus.h>`. -/
def W_CONTINUED : Int := 0xffff

/-! ## Data model -/

/-- Modelled from the spec: the parsed command description `cmdLine`, declared in
`LineParser.h`, which is not among the sources.  The spec (section 6) gives it an
argument vector, an optional input-redirect path, an optional output-redirect
path, a foreground/background flag and an optional link to a following command;
`idx` is the extra field `handlePipeExecution` resets.  `argCount` is the length
of the argument vector. -/
inductive CmdLine where
  | mk (arguments : List String) (inputRedirect : Option String)
      (outputRedirect : Option String) (blocking : Bool) (idx : Int)
      (next : Option CmdLine) : CmdLine

namespace CmdLine

def arguments : CmdLine → List String
  | mk a _ _ _ _ _ => a

def inputRedirect : CmdLine → Option String
  | mk _ i _ _ _ _ => i

def outputRedirect : CmdLine → Option String
  | mk _ _ o _ _ _ => o

def blocking : CmdLine → Bool
  | mk _ _ _ b _ _ => b

def idx : CmdLine → Int
  | mk _ _ _ _ x _ => x

def next : CmdLine → Option CmdLine
  | mk _ _ _ _ _ n => n

def argCount (c : CmdLine) : Int := c.arguments.length

/-- The assignment `c->next = NULL`. -/
def setNextNull : CmdLine → CmdLine
  | mk a i o b x _ => mk a i o b x none

/-- The assignment `c->idx = v`. -/
def setIdx (v : Int) : CmdLine → CmdLine
  | mk a i o b _ n => mk a i o b v n

end CmdLine

/-- A node of the process list (`struct process`), without its `next` pointer:
the list itself is a Lean list, head first. -/
structure Process where
  cmd : CmdLine
  pid : Int
  status : Int

/-- The history queue: `entries` is the chain read from `history_head`
(oldest first, `history_tail` being its last node), `history_count` the global
counter. -/
structure History where
  entries : List String
  history_count : Int
deriving DecidableEq, Repr

/-- Effects that leave the interpreter process, in program order. -/
inductive Event where
  | chdir (dir : String)
  | kill (pid : Int) (signal : Int)
  | pipe
  | fork (ret : Int)
  | waitpid (pid : Int)
  | openFile (path : String) (forWriting : Bool)
  | dup2 (fd : Int) (target : Int)
  | close (fd : Int)
  | execvp (program : Option String) (arguments : List String)
  | out (text : String)
  | outSignal (pid : Int)
  | outJob (pid : Int) (name : Option String) (status : Option String)
  | outHistory (index : Int) (command : String)
  | err (text : String)
  | freeCmdLines (cmd : CmdLine)

/-- The interpreter's global state together with the trace of its effects. -/
structure Shell where
  processList : List Process
  history : History
  trace : List Event

/-- Result of `waitpid(pid, &status, WNOHANG | WUNTRACED)`: the return value and
what was stored in `status`. -/
structure WaitResult where
  result : Int
  status : Int

/-- Answers of everything outside `myshell.c`: the external line parser and
the operating system.  `parseCmdLines` answers `none` for a NULL result.
`fork n` is the value returned by the `n`-th `fork` of one dispatch, `waitpid`
the return value of a blocking `waitpid(pid, NULL, 0)`, `probe n` the outcome
of the `n`-th non-blocking `waitpid` of one refresh, `pipe` the return value of
`pipe` (its descriptors being `pipeRead` and `pipeWrite`).  `execvp` answers -1
when the call fails and returns; any other answer stands for the program image
being replaced, after which nothing of `myshell.c` runs (so the `_exit(0)` of
line 364 is never reached). -/
structure Env where
  parseCmdLines : String → Option CmdLine
  chdir : String → Int
  kill : Int → Int → Int
  pipe : Int
  pipeRead : Int
  pipeWrite : Int
  fork : Nat → Int
  waitpid : Int → Int
  probe : Nat → WaitResult
  openFile : String → Int
  dup2 : Int → Int → Int
  execvp : Option String → List String → Int

/-- How a function of the interpreter can fail to return to its caller. -/
inductive Halt where
  | exit (code : Int)
  | crash
  | exec

/-- Outcome of running a function on a state: it returns a value, or the
process ends (`_exit`, a NULL dereference, or a successful `execvp`). -/
inductive Result (α : Type) where
  | ret (value : α) (sh : Shell) : Result α
  | halt (how : Halt) (sh : Shell) : Result α

namespace Result

def sh {α : Type} : Result α → Shell
  | ret _ s => s
  | halt _ s => s

def bind {α β : Type} (r : Result α) (f : α → Shell → Result β) : Result β :=
  match r with
  | ret v s => f v s
  | halt h s => halt h s

end Result

def Shell.emit (s : Shell) (e : Event) : Shell :=
  { s with trace := s.trace ++ [e] }

/-! ## History buffer -/

def History.empty : History := ⟨[], 0⟩

/-- Lines 39-64. -/
def addHistoryEntry (h : History) (command : String) : History :=
  if HISTLEN ≤ 0 then h
  else
    let new_entry := command
    let h1 : History :=
      if h.history_count = HISTLEN then
        ⟨h.entries.tail, h.history_count - 1⟩
      else h
    let chain := if h1.history_count ≠ 0 then h1.entries ++ [new_entry] else [new_entry]
    ⟨chain, h1.history_count + 1⟩

/-- The loop of `printHistory` (lines 66-74), from node `current` with counter `index`. -/
def printHistoryLoop : List String → Int → List Event
  | [], _ => []
  | command :: rest, index => Event.outHistory index command :: printHistoryLoop rest (index + 1)

def printHistory (s : Shell) : Shell :=
  { s with trace := s.trace ++ printHistoryLoop s.history.entries 1 }

/-- The loop `for (i = 1; i < index; i++) current = current->next;`, given the
number of iterations left. -/
def historyWalk : Nat → List String → List String
  | 0, current => current
  | n + 1, current => historyWalk n current.tail

/-- Lines 76-87.  `none` is the NULL return. -/
def getHistoryEntry (s : Shell) (index : Int) : Option String × Shell :=
  if index < 1 ∨ index > s.history.history_count then
    (none, s.emit (Event.err "No such entry in history"))
  else
    ((historyWalk (index - 1).toNat s.history.entries).head?, s)

/-! ## Process registry -/

/-- Lines 89-104. -/
def addProcess (process_list : List Process) (cmd : CmdLine) (pid : Int) : List Process :=
  let newProcess : Process := { cmd := cmd, pid := pid, status := RUNNING }
  match process_list with
  | [] => [newProcess]
  | first :: rest => newProcess :: first :: rest

/-- Lines 106-115. -/
def updateProcessStatus : List Process → Int → Int → List Process
  | [], _, _ => []
  | current :: rest, pid, status =>
    if current.pid = pid then { current with status := status } :: rest
    else current :: updateProcessStatus rest pid status

/-- The macros of `<sys/wait.h>` (glibc). -/
def WIFEXITED (status : Int) : Bool := status % 128 = 0

def WIFSIGNALED (status : Int) : Bool := 1 ≤ status % 128 ∧ status % 128 ≤ 126

def WIFSTOPPED (status : Int) : Bool := status % 256 = 127

/-- Body of the loop of `updateProcessList` (lines 121-136) at node `current`,
the head of the given list, for one probe outcome. -/
def probeStep (r : WaitResult) : List Process → List Process
  | [] => []
  | current :: rest =>
    if r.result = -1 then
      updateProcessStatus (current :: rest) current.pid TERMINATED
    else if r.result > 0 then
      if r.result = current.pid then
        if WIFEXITED r.status then
          updateProcessStatus (current :: rest) current.pid TERMINATED
        else if WIFSIGNALED r.status then
          updateProcessStatus (current :: rest) current.pid TERMINATED
        else if WIFSTOPPED r.status then
          updateProcessStatus (current :: rest) current.pid SUSPENDED
        else if r.status = W_CONTINUED then
          updateProcessStatus (current :: rest) current.pid RUNNING
        else current :: rest
      else current :: rest
    else current :: rest

/-- Lines 117-139: the list from `current` on, after the loop has run over it.
`probe n` answers the `n`-th `waitpid`. -/
def updateProcessList (probe : Nat → WaitResult) (l : List Process) : List Process :=
  match l with
  | [] => []
  | current :: rest =>
    match h : probeStep (probe 0) (current :: rest) with
    | [] => []
    | visited :: next => visited :: updateProcessList (fun n => probe (n + 1)) next
termination_by l.length
decreasing_by
  have hl := congrArg List.length h
  simp only [probeStep, updateProcessStatus] at hl
  split_ifs at hl <;> simp only [List.length_cons] at hl ⊢ <;> omega

/-- The status text chosen at lines 148-155; `none` when no branch assigns it. -/
def statusText (status : Int) : Option String :=
  if status = RUNNING then some "Running"
  else if status = SUSPENDED then some "Suspended"
  else if status = TERMINATED then some "Terminated"
  else none

/-- The loop of `printProcessList` (lines 147-175).  `before` is the part of the
list already walked and kept (its last node is `prev`, and `prev` is NULL when
it is empty); the second argument is the list from `current` on.  Returns the
final list and the events of the loop. -/
def printProcessLoop : List Process → List Process → List Process × List Event
  | before, [] => (before, [])
  | before, current :: rest =>
    let line := Event.outJob current.pid current.cmd.arguments.head? (statusText current.status)
    if current.status = TERMINATED then
      if before.isEmpty = false then
        let r := printProcessLoop before rest
        (r.1, line :: Event.freeCmdLines current.cmd :: r.2)
      else
        let r := printProcessLoop [] rest
        (r.1, line :: Event.freeCmdLines current.cmd :: r.2)
    else
      let r := printProcessLoop (before ++ [current]) rest
      (r.1, line :: r.2)

/-- Lines 141-176. -/
def printProcessList (probe : Nat → WaitResult) (process_list : List Process) :
    List Process × List Event :=
  let refreshed := updateProcessList probe process_list
  let r := printProcessLoop [] refreshed
  (r.1, Event.out "PID\t\tCommand\t\tSTATUS\n" :: r.2)

/-! ## C library helpers -/

/-- The `isdigit` of `<ctype.h>` in the C locale. -/
def isdigit (c : Char) : Bool := 48 ≤ c.toNat ∧ c.toNat ≤ 57

/-- The `isspace` of `<ctype.h>` in the C locale. -/
def isspace (c : Char) : Bool := c.toNat = 32 ∨ (9 ≤ c.toNat ∧ c.toNat ≤ 13)

/-- Value of the leading run of decimal digits, continuing from `acc`. -/
def digitsValue : List Char → Int → Int
  | [], acc => acc
  | c :: rest, acc =>
    if isdigit c then digitsValue rest (acc * 10 + ((c.toNat : Int) - 48)) else acc

/-- The `atoi` of glibc, `(int) strtol(nptr, NULL, 10)`: leading white space, an
optional sign, then digits; the `long` result saturates and the conversion to
`int` keeps the low 32 bits. -/
def atoi (nptr : List Char) : Int :=
  let s1 := nptr.dropWhile isspace
  let signed : Bool × List Char :=
    match s1 with
    | c :: rest => if c.toNat = 45 then (true, rest) else if c.toNat = 43 then (false, rest) else (false, s1)
    | [] => (false, s1)
  let magnitude := digitsValue signed.2 0
  let value := if signed.1 then -magnitude else magnitude
  let long := max (-(2 : Int) ^ 63) (min value ((2 : Int) ^ 63 - 1))
  (long + 2 ^ 31) % 2 ^ 32 - 2 ^ 31

/-! ## Redirection setup -/

/-- Lines 178-206.  Runs in a freshly forked child. -/
def handle_redirection (env : Env) (s : Shell) (pCmdLine : CmdLine) : Result Unit :=
  let input : Result Unit :=
    match pCmdLine.inputRedirect with
    | some path =>
      let input_fd := env.openFile path
      let s1 := s.emit (Event.openFile path false)
      if input_fd = -1 then
        Result.halt (Halt.exit 1) (s1.emit (Event.err "Failed to open input file"))
      else
        let s2 := s1.emit (Event.dup2 input_fd 0)
        if env.dup2 input_fd 0 = -1 then
          Result.halt (Halt.exit 1) (s2.emit (Event.err "Failed to redirect input"))
        else Result.ret () (s2.emit (Event.close input_fd))
    | none => Result.ret () s
  input.bind fun _ s =>
    match pCmdLine.outputRedirect with
    | some path =>
      let output_fd := env.openFile path
      let s1 := s.emit (Event.openFile path true)
      if output_fd = -1 then
        Result.halt (Halt.exit 1) (s1.emit (Event.err "Failed to open output file"))
      else
        let s2 := s1.emit (Event.dup2 output_fd 1)
        if env.dup2 output_fd 1 = -1 then
          Result.halt (Halt.exit 1) (s2.emit (Event.err "Failed to redirect output"))
        else Result.ret () (s2.emit (Event.close output_fd))
    | none => Result.ret () s

/-- The call `execvp(c->arguments[0], c->arguments)` followed by its failure
branch: `execvp` returns only on failure, with -1. -/
def execOrExit (env : Env) (s : Shell) (c : CmdLine) (message : String) : Result Unit :=
  let s1 := s.emit (Event.execvp c.arguments.head? c.arguments)
  if env.execvp c.arguments.head? c.arguments = -1 then
    Result.halt (Halt.exit 1) (s1.emit (Event.err message))
  else Result.halt Halt.exec s1

/-! ## Signal dispatcher -/

/-- Lines 209-220: the pair `(signal, status)` selected by the verb.  `signal`
stays 0 for any other verb, and `status` is then never read. -/
def selectSignal (verb : String) : Int × Int :=
  if verb = "stop" then (SIGTSTP, SUSPENDED)
  else if verb = "wake" then (SIGCONT, RUNNING)
  else if verb = "term" then (SIGINT, TERMINATED)
  else (0, 0)

/-- Lines 208-234. -/
def handleSignalExecution (env : Env) (s : Shell) (pCmdLine : CmdLine) : Result Int :=
  match pCmdLine.arguments with
  | [] => Result.halt Halt.crash s
  | verb :: rest =>
    let selected := selectSignal verb
    let signal := selected.1
    let status := selected.2
    if signal ≠ 0 then
      match rest with
      | [] => Result.halt Halt.crash s
      | target :: _ =>
        let pid := atoi target.data
        let s1 := (s.emit (Event.outSignal pid)).emit (Event.kill pid signal)
        let s2 :=
          if env.kill pid signal = -1 then s1.emit (Event.err "Failed to send signal")
          else { s1 with processList := updateProcessStatus s1.processList pid status }
        Result.ret signal (s2.emit (Event.freeCmdLines pCmdLine))
    else Result.ret signal s

/-! ## Pipeline executor -/

/-- Lines 236-308. -/
def handlePipeExecution (env : Env) (s : Shell) (left0 right0 : CmdLine) : Result Int :=
  let left := left0.setNextNull
  let right := right0.setIdx 0
  if left.outputRedirect.isSome ∨ right.inputRedirect.isSome then
    Result.ret 1
      (((s.emit (Event.err "Error: Invalid redirection with pipes\n")).emit
        (Event.freeCmdLines left)).emit (Event.freeCmdLines right))
  else
    let s1 := s.emit Event.pipe
    if env.pipe = -1 then
      Result.halt (Halt.exit 1) (s1.emit (Event.err "pipe creation failed"))
    else
      let leftChildPid := env.fork 0
      let s2 := s1.emit (Event.fork leftChildPid)
      if leftChildPid = -1 then
        Result.halt (Halt.exit 1) (s2.emit (Event.err "fork failed"))
      else if leftChildPid = 0 then
        (handle_redirection env s2 left).bind fun _ s3 =>
          let s4 := ((s3.emit (Event.close env.pipeRead)).emit
            (Event.dup2 env.pipeWrite 1)).emit (Event.close env.pipeWrite)
          (execOrExit env s4 left "Execution failed").bind fun _ s5 => Result.ret 0 s5
      else
        let rightChildPid := env.fork 1
        let s3 := s2.emit (Event.fork rightChildPid)
        if rightChildPid = -1 then
          Result.halt (Halt.exit 1) (s3.emit (Event.err "fork failed"))
        else if rightChildPid = 0 then
          (handle_redirection env s3 right).bind fun _ s4 =>
            let s5 := ((s4.emit (Event.close env.pipeWrite)).emit
              (Event.dup2 env.pipeRead 0)).emit (Event.close env.pipeRead)
            (execOrExit env s5 right "Execution failed").bind fun _ s6 => Result.ret 0 s6
        else
          let s4 := (s3.emit (Event.close env.pipeRead)).emit (Event.close env.pipeWrite)
          let s5 := s4.emit (Event.waitpid leftChildPid)
          let s6 :=
            if env.waitpid leftChildPid = -1 then s5.emit (Event.err "Error waiting for left child")
            else s5
          let s7 := s6.emit (Event.waitpid rightChildPid)
          let s8 :=
            if env.waitpid rightChildPid = -1 then s7.emit (Event.err "Error waiting for right child")
            else s7
          let withLeft := addProcess s8.processList left leftChildPid
          Result.ret 0 { s8 with processList := addProcess withLeft right rightChildPid }

/-! ## Execution dispatcher -/

/-- Lines 310-328.  The outcome of `chdir` only selects a debug message. -/
def handle_cd (_env : Env) (s : Shell) (parsedLine : CmdLine) : Result Int :=
  match parsedLine.arguments with
  | [] => Result.halt Halt.crash s
  | name :: rest =>
    if name = "cd" then
      let s1 :=
        if parsedLine.argCount < 2 then s
        else
          match rest with
          | dir :: _ => s.emit (Event.chdir dir)
          | [] => s
      Result.ret 1 (s1.emit (Event.freeCmdLines parsedLine))
    else Result.ret 0 s

/-- Lines 330-378. -/
def execute (env : Env) (s : Shell) (pCmdLine : CmdLine) : Result Unit :=
  (handle_cd env s pCmdLine).bind fun isCd s1 =>
  (if isCd ≠ 0 then Result.ret isCd s1 else handleSignalExecution env s1 pCmdLine).bind
    fun handled s2 =>
  if handled ≠ 0 then Result.ret () s2
  else
    match pCmdLine.next with
    | some right =>
      (handlePipeExecution env s2 pCmdLine right).bind fun _ s3 => Result.ret () s3
    | none =>
      match pCmdLine.arguments with
      | [] => Result.halt Halt.crash s2
      | name :: _ =>
        if name = "procs" then
          let r := printProcessList env.probe s2.processList
          let s3 : Shell := { s2 with processList := r.1, trace := s2.trace ++ r.2 }
          Result.ret () (s3.emit (Event.freeCmdLines pCmdLine))
        else if name = "history" then
          Result.ret () ((printHistory s2).emit (Event.freeCmdLines pCmdLine))
        else
          let pid := env.fork 0
          let s3 := s2.emit (Event.fork pid)
          if pid = -1 then
            Result.halt (Halt.exit 1) (s3.emit (Event.err "fork creation failed"))
          else if pid = 0 then
            (handle_redirection env s3 pCmdLine).bind fun _ s4 =>
              execOrExit env s4 pCmdLine "The execution failed"
          else
            let s4 : Shell := { s3 with processList := addProcess s3.processList pCmdLine pid }
            if pCmdLine.blocking then
              let s5 := s4.emit (Event.waitpid pid)
              if env.waitpid pid = -1 then Result.ret () (s5.emit (Event.err "waitpid failed"))
              else Result.ret () s5
            else Result.ret () s4

/-! ## One iteration of the read-eval loop -/

/-- Lines 414-437 of `main`: `input` is the line read, its newline removed.
Returns `true` when the loop goes on and `false` on `quit`. -/
def mainStep (env : Env) (s : Shell) (input : String) : Result Bool :=
  if input.data.isEmpty then Result.ret true s
  else if input = "quit" then Result.ret false s
  else
    match env.parseCmdLines input with
    | none => Result.halt Halt.crash s
    | some line =>
      match line.arguments with
      | [] => Result.halt Halt.crash s
      | first :: _ =>
        if first.data.head? = some (Char.ofNat 33) then
          let index :=
            if (first.data.tail.head?.map isdigit).getD false then atoi first.data.tail
            else s.history.history_count
          let found := getHistoryEntry s index
          match found.1 with
          | some command =>
            let redo := env.parseCmdLines command
            let s1 : Shell := { found.2 with history := addHistoryEntry found.2.history command }
            match redo with
            | none => Result.halt Halt.crash s1
            | some redo =>
              (execute env s1 redo).bind fun _ s2 =>
                Result.ret true (s2.emit (Event.freeCmdLines line))
          | none => Result.ret true (found.2.emit (Event.freeCmdLines line))
        else
          let s1 : Shell := { s with history := addHistoryEntry s.history input }
          (execute env s1 line).bind fun _ s2 => Result.ret true s2

/-! ## Auxiliary definitions for the statements -/

/-- The status the loop body of `updateProcessList` leaves at the node it
visits, for probe outcome `r`. -/
def statusAfterProbe (r : WaitResult) (p : Process) : Int :=
  if r.result = -1 then TERMINATED
  else if r.result > 0 ∧ r.result = p.pid then
    if WIFEXITED r.status then TERMINATED
    else if WIFSIGNALED r.status then TERMINATED
    else if WIFSTOPPED r.status then SUSPENDED
    else if r.status = W_CONTINUED then RUNNING
    else p.status
  else p.status

/-- The job lines printed in a trace: `(pid, command name, status text)`. -/
def jobLines : List Event → List (Int × Option String × Option String)
  | [] => []
  | Event.outJob pid name status :: rest => (pid, name, status) :: jobLines rest
  | _ :: rest => jobLines rest

/-- The line `printProcessList` prints for a job. -/
def jobLine (p : Process) : Int × Option String × Option String :=
  (p.pid, p.cmd.arguments.head?, statusText p.status)

/-- Number of `fork` calls in a trace. -/
def forkCount : List Event → Nat
  | [] => 0
  | Event.fork _ :: rest => forkCount rest + 1
  | _ :: rest => forkCount rest

/-- Number of `pipe` calls in a trace. -/
def pipeCount : List Event → Nat
  | [] => 0
  | Event.pipe :: rest => pipeCount rest + 1
  | _ :: rest => pipeCount rest

/-! ## Sample inputs -/

/-- A foreground command with the given arguments, no redirection and no link. -/
def plainCmd (arguments : List String) : CmdLine :=
  CmdLine.mk arguments none none true 0 none

/-- A parser for single words: the whole line is the only argument. -/
def wordParser (line : String) : Option CmdLine := some (plainCmd [line])

/-- An environment where every call succeeds, `fork` returns the child pids 100
and 101 to the parent, and every probe reports no state change. -/
def calmEnv : Env where
  parseCmdLines := wordParser
  chdir := fun _ => 0
  kill := fun _ _ => 0
  pipe := 0
  pipeRead := 3
  pipeWrite := 4
  fork := fun n => 100 + (n : Int)
  waitpid := fun pid => pid
  probe := fun _ => ⟨0, 0⟩
  openFile := fun _ => 5
  dup2 := fun _ target => target
  execvp := fun _ _ => 0

/-- A probe outcome: no state change. -/
def probeNoChange : Nat → WaitResult := fun _ => ⟨0, 0⟩

/-- A probe outcome: the child with pid 5 exited with code 0. -/
def probeExited5 : Nat → WaitResult := fun _ => ⟨5, 0⟩

/-- A probe outcome: the child with pid 7 was stopped by SIGTSTP (status 0x147f). -/
def probeStopped7 : Nat → WaitResult := fun _ => ⟨7, 0x147f⟩

/-- A state with an empty history and the given jobs. -/
def shellWith (jobs : List Process) : Shell :=
  { processList := jobs, history := History.empty, trace := [] }

/-- The trace of `s` continues the trace `before`. -/
def Shell.Extends (before : List Event) (s : Shell) : Prop :=
  ∃ tail, s.trace = before ++ tail

/-! ## Well-formed states -/

/-- The invariant of the history globals: the counter is the length of the
chain and does not exceed the capacity. -/
def History.WF (h : History) : Prop :=
  h.history_count = h.entries.length ∧ h.history_count ≤ HISTLEN

/-! ## History buffer: proofs -/

theorem addHistoryEntry_eq (h : History) (c : String) (hw : h.WF) :
    addHistoryEntry h c =
      ⟨(h.entries ++ [c]).drop (h.entries.length + 1 - 10),
        ((min (h.entries.length + 1) 10 : Nat) : Int)⟩ := by
  obtain ⟨es, n⟩ := h
  obtain ⟨hc, hl⟩ := hw
  simp only [HISTLEN] at hc hl
  subst hc
  have hl2 : es.length ≤ 10 := by exact_mod_cast hl
  by_cases h10 : es.length = 10
  · cases es with
    | nil => simp at h10
    | cons e rest =>
      simp only [List.length_cons] at h10
      have hr : rest.length = 9 := by omega
      simp [addHistoryEntry, HISTLEN, hr]
  · have h0 : es.length + 1 - 10 = 0 := by omega
    have hm : min (es.length + 1) 10 = es.length + 1 := by omega
    cases es with
    | nil => simp [addHistoryEntry, HISTLEN]
    | cons e rest =>
      simp only [List.length_cons] at *
      have hne2 : ¬ ((rest.length : Int) + 1 = 10) := by omega
      have hne3 : ¬ ((rest.length : Int) + 1 = 0) := by omega
      simp [addHistoryEntry, HISTLEN, hne2, hne3, h0, hm]

theorem History.WF_empty : History.empty.WF := by
  simp [History.WF, History.empty, HISTLEN]

theorem History.WF_addHistoryEntry (h : History) (c : String) (hw : h.WF) :
    (addHistoryEntry h c).WF := by
  rw [addHistoryEntry_eq h c hw]
  constructor
  · simp only [List.length_drop, List.length_append, List.length_singleton]
    congr 1
    omega
  · simp only [HISTLEN]
    exact_mod_cast Nat.min_le_right _ _

theorem foldl_addHistoryEntry (lines : List String) :
    lines.foldl addHistoryEntry History.empty =
      ⟨lines.drop (lines.length - 10), ((min lines.length 10 : Nat) : Int)⟩ := by
  induction lines using List.reverseRecOn with
  | nil => rfl
  | append_singleton lines c ih =>
    have hw : History.WF ⟨lines.drop (lines.length - 10), ((min lines.length 10 : Nat) : Int)⟩ := by
      constructor
      · simp only [List.length_drop]; congr 1; omega
      · simp only [HISTLEN]; exact_mod_cast Nat.min_le_right _ _
    rw [List.foldl_append, ih]
    simp only [List.foldl_cons, List.foldl_nil]
    rw [addHistoryEntry_eq _ _ hw]
    simp only [List.length_drop, List.length_append, List.length_singleton]
    congr 1
    · by_cases hl : lines.length < 10
      · have h1 : lines.length - 10 = 0 := by omega
        have h2 : lines.length - 0 + 1 - 10 = 0 := by omega
        have h3 : lines.length + 1 - 10 = 0 := by omega
        simp [h1, h2, h3]
      · have h2 : lines.length - (lines.length - 10) + 1 - 10 = 1 := by omega
        rw [h2, List.drop_append_of_le_length (by simp; omega), List.drop_drop,
          List.drop_append_of_le_length (by omega)]
        congr 2
        omega
    · congr 1; omega

/-- C1: after appending the lines of `lines` in order to the empty history, the
chain read oldest-first is the last `min n HISTLEN` lines in append order and
the counter is `min n HISTLEN`; so the chain never holds more than `HISTLEN`
entries, and after `HISTLEN + k` appends its oldest entry is line `k + 1`
(position `k` counted from 0). -/
theorem addHistoryEntry_keeps_last_HISTLEN (lines : List String) :
    (lines.foldl addHistoryEntry History.empty).entries
        = lines.drop (lines.length - HISTLEN.toNat)
      ∧ (lines.foldl addHistoryEntry History.empty).history_count
        = min (lines.length : Int) HISTLEN
      ∧ ((lines.foldl addHistoryEntry History.empty).entries.length : Int) ≤ HISTLEN
      ∧ ∀ k : Nat, lines.length = HISTLEN.toNat + k →
          (lines.foldl addHistoryEntry History.empty).entries.head? = lines[k]? := by
  have h10 : HISTLEN.toNat = 10 := rfl
  rw [foldl_addHistoryEntry, h10]
  refine ⟨rfl, ?_, ?_, ?_⟩
  · simp only [HISTLEN]
    exact_mod_cast rfl
  · simp only [HISTLEN, List.length_drop]
    have : lines.length - (lines.length - 10) ≤ 10 := by omega
    exact_mod_cast this
  · intro k hk
    have hk2 : lines.length - 10 = k := by omega
    simp only [hk2, List.head?_drop]

/-- Witness for C1: twelve appends keep the last ten lines, the oldest being the third. -/
theorem addHistoryEntry_keeps_last_HISTLEN_witness :
    (["a", "b", "c", "d", "e", "f", "g", "h", "i", "j", "k", "l"].foldl
        addHistoryEntry History.empty).entries.head? = some "c" := by
  have h := (addHistoryEntry_keeps_last_HISTLEN
    ["a", "b", "c", "d", "e", "f", "g", "h", "i", "j", "k", "l"]).2.2.2 2 rfl
  rw [h]
  rfl

theorem historyWalk_eq_drop (n : Nat) (l : List String) : historyWalk n l = l.drop n := by
  induction n generalizing l with
  | zero => rfl
  | succ n ih =>
    cases l with
    | nil => simp [historyWalk, ih]
    | cons a rest => simp [historyWalk, ih]

theorem getHistoryEntry_valid (s : Shell) (hw : s.history.WF) (i : Int) (h1 : 1 ≤ i)
    (h2 : i ≤ s.history.history_count) :
    ∃ text, s.history.entries[(i - 1).toNat]? = some text
      ∧ getHistoryEntry s i = (some text, s) := by
  obtain ⟨hc, _⟩ := hw
  have hlt : (i - 1).toNat < s.history.entries.length := by omega
  refine ⟨s.history.entries[(i - 1).toNat], List.getElem?_eq_getElem hlt, ?_⟩
  have hn : ¬ (i < 1 ∨ i > s.history.history_count) := by omega
  simp only [getHistoryEntry, hn, if_false, historyWalk_eq_drop, List.head?_drop]
  rw [List.getElem?_eq_getElem hlt]

/-- C2: on a well-formed history, `getHistoryEntry i` returns NULL exactly when
`i < 1` or `i > history_count`; for `1 ≤ i ≤ history_count` it returns the text
of the `i`-th entry from the oldest; in both cases the history is unchanged. -/
theorem getHistoryEntry_range (s : Shell) (hw : s.history.WF) (i : Int) :
    ((getHistoryEntry s i).1 = none ↔ (i < 1 ∨ i > s.history.history_count))
      ∧ (1 ≤ i → i ≤ s.history.history_count →
          ∃ text, s.history.entries[(i - 1).toNat]? = some text
            ∧ (getHistoryEntry s i).1 = some text)
      ∧ (getHistoryEntry s i).2.history = s.history
      ∧ (getHistoryEntry s i).2.processList = s.processList := by
  have hvalid : 1 ≤ i → i ≤ s.history.history_count →
      ∃ text, s.history.entries[(i - 1).toNat]? = some text
        ∧ (getHistoryEntry s i).1 = some text := by
    intro h1 h2
    obtain ⟨text, ht, hg⟩ := getHistoryEntry_valid s hw i h1 h2
    exact ⟨text, ht, by rw [hg]⟩
  refine ⟨⟨?_, ?_⟩, hvalid, ?_, ?_⟩
  · intro hnone
    by_contra hcon
    obtain ⟨text, _, ht⟩ := hvalid (by omega) (by omega)
    rw [ht] at hnone
    exact Option.noConfusion hnone
  · intro hout
    simp only [getHistoryEntry, hout, if_true]
  · unfold getHistoryEntry
    split_ifs <;> rfl
  · unfold getHistoryEntry
    split_ifs <;> rfl

/-- Witness for C2: a history of two lines; index 2 is the newer line and index 3
is out of range. -/
theorem getHistoryEntry_range_witness :
    (getHistoryEntry ⟨[], ⟨["ls", "pwd"], 2⟩, []⟩ 2).1 = some "pwd"
      ∧ (getHistoryEntry ⟨[], ⟨["ls", "pwd"], 2⟩, []⟩ 3).1 = none := by
  have hw : History.WF ⟨["ls", "pwd"], 2⟩ := by
    unfold History.WF
    decide
  constructor
  · obtain ⟨text, ht, hg⟩ :=
      (getHistoryEntry_range ⟨[], ⟨["ls", "pwd"], 2⟩, []⟩ hw 2).2.1 (by decide) (by decide)
    rw [hg, ← ht]
    rfl
  · exact (getHistoryEntry_range ⟨[], ⟨["ls", "pwd"], 2⟩, []⟩ hw 3).1.2 (Or.inr (by decide))

/-! ## Process registry: proofs -/

theorem probeStep_cons (r : WaitResult) (p : Process) (rest : List Process) :
    probeStep r (p :: rest) = { p with status := statusAfterProbe r p } :: rest := by
  simp only [probeStep, updateProcessStatus, statusAfterProbe, if_true]
  split_ifs <;> first | rfl | (exfalso; tauto)

theorem updateProcessList_nil (probe : Nat → WaitResult) : updateProcessList probe [] = [] := by
  unfold updateProcessList
  rfl

theorem updateProcessList_cons (probe : Nat → WaitResult) (p : Process) (rest : List Process) :
    updateProcessList probe (p :: rest) =
      { p with status := statusAfterProbe (probe 0) p } ::
        updateProcessList (fun n => probe (n + 1)) rest := by
  rw [updateProcessList]
  split
  · next h => rw [probeStep_cons] at h; exact absurd h (by simp)
  · next v nx h =>
    rw [probeStep_cons] at h
    injection h with h1 h2
    subst h1 h2
    rfl

theorem length_updateProcessList (probe : Nat → WaitResult) (l : List Process) :
    (updateProcessList probe l).length = l.length := by
  induction l generalizing probe with
  | nil => rw [updateProcessList_nil]
  | cons p rest ih => rw [updateProcessList_cons, List.length_cons, List.length_cons, ih]

theorem updateProcessList_getElem? (probe : Nat → WaitResult) (l : List Process) (i : Nat)
    (p : Process) (hp : l[i]? = some p) :
    (updateProcessList probe l)[i]? = some { p with status := statusAfterProbe (probe i) p } := by
  induction l generalizing probe i with
  | nil => simp at hp
  | cons a rest ih =>
    rw [updateProcessList_cons]
    cases i with
    | zero =>
      simp only [List.getElem?_cons_zero, Option.some.injEq] at hp ⊢
      subst hp
      rfl
    | succ j =>
      simp only [List.getElem?_cons_succ] at hp ⊢
      exact ih (fun n => probe (n + 1)) j hp

theorem updateProcessList_of_no_change (probe : Nat → WaitResult) (l : List Process)
    (h0 : ∀ n, (probe n).result = 0) : updateProcessList probe l = l := by
  induction l generalizing probe with
  | nil => rw [updateProcessList_nil]
  | cons p rest ih =>
    rw [updateProcessList_cons, ih (fun n => probe (n + 1)) (fun n => h0 (n + 1))]
    have hs : statusAfterProbe (probe 0) p = p.status := by
      simp [statusAfterProbe, h0 0]
    rw [hs]

theorem printProcessLoop_fst (before l : List Process) :
    (printProcessLoop before l).1 = before ++ l.filter (fun p => decide (p.status ≠ TERMINATED)) := by
  induction l generalizing before with
  | nil => simp [printProcessLoop]
  | cons p rest ih =>
    unfold printProcessLoop
    by_cases ht : p.status = TERMINATED
    · by_cases hb : before.isEmpty = false
      · simp [ht, hb, ih]
      · simp only [Bool.not_eq_false, List.isEmpty_iff] at hb
        subst hb
        simp [ht, ih]
    · simp [ht, ih]

theorem printProcessLoop_jobLines (before l : List Process) :
    jobLines (printProcessLoop before l).2 = l.map jobLine := by
  induction l generalizing before with
  | nil => simp [printProcessLoop, jobLines]
  | cons p rest ih =>
    unfold printProcessLoop
    by_cases ht : p.status = TERMINATED
    · by_cases hb : before.isEmpty = false
      · simp [ht, hb, ih, jobLines, jobLine]
      · simp [ht, hb, ih, jobLines, jobLine]
    · simp [ht, ih, jobLines, jobLine]

theorem map_pid_updateProcessList (probe : Nat → WaitResult) (l : List Process) :
    (updateProcessList probe l).map Process.pid = l.map Process.pid := by
  induction l generalizing probe with
  | nil => rw [updateProcessList_nil]
  | cons p rest ih => rw [updateProcessList_cons, List.map_cons, List.map_cons, ih]

theorem map_cmd_updateProcessList (probe : Nat → WaitResult) (l : List Process) :
    (updateProcessList probe l).map Process.cmd = l.map Process.cmd := by
  induction l generalizing probe with
  | nil => rw [updateProcessList_nil]
  | cons p rest ih => rw [updateProcessList_cons, List.map_cons, List.map_cons, ih]

/-- C3: `printProcessList` leaves exactly the jobs whose refreshed status is not
Terminated, in their original order, and its report has one line per job tracked
before the call, in registry order, with the refreshed status. -/
theorem printProcessList_reaps_terminated (probe : Nat → WaitResult) (l : List Process) :
    (printProcessList probe l).1
        = (updateProcessList probe l).filter (fun p => decide (p.status ≠ TERMINATED))
      ∧ jobLines (printProcessList probe l).2 = (updateProcessList probe l).map jobLine
      ∧ (jobLines (printProcessList probe l).2).map (fun line => line.1) = l.map Process.pid
      ∧ (jobLines (printProcessList probe l).2).length = l.length := by
  have hl : jobLines (printProcessList probe l).2 = (updateProcessList probe l).map jobLine := by
    simp only [printProcessList, jobLines]
    exact printProcessLoop_jobLines [] _
  refine ⟨?_, hl, ?_, ?_⟩
  · simp only [printProcessList, printProcessLoop_fst, List.nil_append]
  · rw [hl, List.map_map, ← map_pid_updateProcessList probe l]
    rfl
  · rw [hl, List.length_map, length_updateProcessList]

/-- C5: `updateProcessList` keeps the number, order, pids and commands of the jobs
and sets the status of the job at position `i` from probe `i` alone: failure
(-1) gives Terminated; a notification for the job (the call returns its pid)
gives Terminated for a normal exit or a fatal signal, Suspended for a stop,
Running for a continue; a probe reporting no state change (0) keeps the status. -/
theorem updateProcessList_status (probe : Nat → WaitResult) (l : List Process) (i : Nat)
    (p : Process) (hp : l[i]? = some p) :
    (updateProcessList probe l).length = l.length
      ∧ (updateProcessList probe l).map Process.pid = l.map Process.pid
      ∧ (updateProcessList probe l).map Process.cmd = l.map Process.cmd
      ∧ ∃ q, (updateProcessList probe l)[i]? = some q ∧ q.pid = p.pid ∧ q.cmd = p.cmd
        ∧ ((probe i).result = -1 → q.status = TERMINATED)
        ∧ ((probe i).result = p.pid → 0 < p.pid → WIFEXITED (probe i).status = true →
            q.status = TERMINATED)
        ∧ ((probe i).result = p.pid → 0 < p.pid → WIFSIGNALED (probe i).status = true →
            q.status = TERMINATED)
        ∧ ((probe i).result = p.pid → 0 < p.pid → WIFSTOPPED (probe i).status = true →
            q.status = SUSPENDED)
        ∧ ((probe i).result = p.pid → 0 < p.pid → (probe i).status = W_CONTINUED →
            q.status = RUNNING)
        ∧ ((probe i).result = 0 → q.status = p.status) := by
  refine ⟨length_updateProcessList probe l, map_pid_updateProcessList probe l,
    map_cmd_updateProcessList probe l, _, updateProcessList_getElem? probe l i p hp, rfl, rfl,
    ?_, ?_, ?_, ?_, ?_, ?_⟩
  · intro h
    simp [statusAfterProbe, h]
  · intro h hpos he
    have hne : ¬ (probe i).result = -1 := by omega
    have hgt : (probe i).result > 0 ∧ (probe i).result = p.pid := ⟨by omega, h⟩
    simp only [statusAfterProbe]
    rw [if_neg hne, if_pos hgt, if_pos he]
  · intro h hpos hs
    have hne : ¬ (probe i).result = -1 := by omega
    have hgt : (probe i).result > 0 ∧ (probe i).result = p.pid := ⟨by omega, h⟩
    simp only [statusAfterProbe]
    rw [if_neg hne, if_pos hgt, if_pos hs]
    split_ifs <;> rfl
  · intro h hpos hs
    have hne : ¬ (probe i).result = -1 := by omega
    have hgt : (probe i).result > 0 ∧ (probe i).result = p.pid := ⟨by omega, h⟩
    have hs2 : (probe i).status % 256 = 127 := by simpa [WIFSTOPPED] using hs
    have he : ¬ WIFEXITED (probe i).status = true := by
      simp only [WIFEXITED, decide_eq_true_eq]; omega
    have hg : ¬ WIFSIGNALED (probe i).status = true := by
      simp only [WIFSIGNALED, decide_eq_true_eq]; omega
    simp only [statusAfterProbe]
    rw [if_neg hne, if_pos hgt, if_neg he, if_neg hg, if_pos hs]
  · intro h hpos hs
    have hne : ¬ (probe i).result = -1 := by omega
    have hgt : (probe i).result > 0 ∧ (probe i).result = p.pid := ⟨by omega, h⟩
    have he : ¬ WIFEXITED (probe i).status = true := by
      rw [hs]; decide
    have hg : ¬ WIFSIGNALED (probe i).status = true := by
      rw [hs]; decide
    have ht : ¬ WIFSTOPPED (probe i).status = true := by
      rw [hs]; decide
    simp only [statusAfterProbe]
    rw [if_neg hne, if_pos hgt, if_neg he, if_neg hg, if_neg ht, if_pos hs]
  · intro h
    simp [statusAfterProbe, h]

/-- Witness for C5: a stop notification for the first of two jobs. -/
theorem updateProcessList_status_witness :
    ∃ q, (updateProcessList probeStopped7
        [⟨plainCmd ["sleep"], 7, RUNNING⟩, ⟨plainCmd ["cat"], 9, RUNNING⟩])[0]? = some q
      ∧ q.status = SUSPENDED := by
  obtain ⟨_, _, _, q, hq, _, _, _, _, _, hstop, _, _⟩ :=
    updateProcessList_status probeStopped7
      [⟨plainCmd ["sleep"], 7, RUNNING⟩, ⟨plainCmd ["cat"], 9, RUNNING⟩] 0
      ⟨plainCmd ["sleep"], 7, RUNNING⟩ rfl
  exact ⟨q, hq, hstop rfl (by decide) (by decide)⟩

/-- Counterexample for C10: a running job survives a first listing whose probe
reports no change, and is removed by a second listing whose probe reports its
exit; the registry after the second call differs from the one after the first. -/
theorem printProcessList_twice_differs :
    (printProcessList probeNoChange [⟨plainCmd ["sleep"], 5, RUNNING⟩]).1.map Process.pid = [5]
      ∧ (printProcessList probeExited5
          (printProcessList probeNoChange [⟨plainCmd ["sleep"], 5, RUNNING⟩]).1).1.map Process.pid
        = []
      ∧ (printProcessList probeExited5
          (printProcessList probeNoChange [⟨plainCmd ["sleep"], 5, RUNNING⟩]).1).1
        ≠ (printProcessList probeNoChange [⟨plainCmd ["sleep"], 5, RUNNING⟩]).1 := by
  have h1 : (printProcessList probeNoChange [⟨plainCmd ["sleep"], 5, RUNNING⟩]).1
      = [⟨plainCmd ["sleep"], 5, RUNNING⟩] := by
    simp [printProcessList, printProcessLoop_fst, updateProcessList_cons, updateProcessList_nil,
      statusAfterProbe, probeNoChange, RUNNING, TERMINATED]
  have h2 : (printProcessList probeExited5 [⟨plainCmd ["sleep"], 5, RUNNING⟩]).1 = [] := by
    simp [printProcessList, printProcessLoop_fst, updateProcessList_cons, updateProcessList_nil,
      statusAfterProbe, probeExited5, WIFEXITED, RUNNING, TERMINATED]
  rw [h1, h2]
  simp

/-- C10 (amended): when every probe of the second call reports no state change,
the registry after the second `printProcessList` equals the registry after the
first. -/
theorem printProcessList_twice_no_change (probe1 probe2 : Nat → WaitResult)
    (l : List Process) (h0 : ∀ n, (probe2 n).result = 0) :
    (printProcessList probe2 (printProcessList probe1 l).1).1
      = (printProcessList probe1 l).1 := by
  simp only [printProcessList, printProcessLoop_fst, List.nil_append]
  rw [updateProcessList_of_no_change probe2 _ h0, List.filter_filter]
  simp

/-- Witness for C10 (amended). -/
theorem printProcessList_twice_no_change_witness :
    (∀ n, (probeNoChange n).result = 0)
      ∧ (printProcessList probeNoChange (printProcessList probeExited5
          [⟨plainCmd ["sleep"], 5, RUNNING⟩, ⟨plainCmd ["cat"], 9, SUSPENDED⟩]).1).1
        = (printProcessList probeExited5
          [⟨plainCmd ["sleep"], 5, RUNNING⟩, ⟨plainCmd ["cat"], 9, SUSPENDED⟩]).1 :=
  ⟨fun _ => rfl, printProcessList_twice_no_change probeExited5 probeNoChange _ (fun _ => rfl)⟩

/-! ## Signal dispatcher: proofs -/

theorem length_updateProcessStatus (l : List Process) (pid status : Int) :
    (updateProcessStatus l pid status).length = l.length := by
  induction l with
  | nil => rfl
  | cons a rest ih =>
    unfold updateProcessStatus
    split_ifs
    · rfl
    · simp [ih]

theorem map_pid_updateProcessStatus (l : List Process) (pid status : Int) :
    (updateProcessStatus l pid status).map Process.pid = l.map Process.pid := by
  induction l with
  | nil => rfl
  | cons a rest ih =>
    unfold updateProcessStatus
    split_ifs
    · rfl
    · simp [ih]

theorem map_cmd_updateProcessStatus (l : List Process) (pid status : Int) :
    (updateProcessStatus l pid status).map Process.cmd = l.map Process.cmd := by
  induction l with
  | nil => rfl
  | cons a rest ih =>
    unfold updateProcessStatus
    split_ifs
    · rfl
    · simp [ih]

theorem updateProcessStatus_first_match (l : List Process) (pid status : Int) (i : Nat)
    (q : Process) (hq : l[i]? = some q) (hpid : q.pid = pid)
    (hfirst : ∀ j r, j < i → l[j]? = some r → r.pid ≠ pid) :
    (updateProcessStatus l pid status)[i]? = some { q with status := status } := by
  induction l generalizing i with
  | nil => simp at hq
  | cons a rest ih =>
    cases i with
    | zero =>
      simp only [List.getElem?_cons_zero, Option.some.injEq] at hq
      subst hq
      simp [updateProcessStatus, hpid]
    | succ j =>
      have ha : a.pid ≠ pid := hfirst 0 a (Nat.succ_pos j) (by simp)
      simp only [List.getElem?_cons_succ] at hq
      simp only [updateProcessStatus, if_neg ha, List.getElem?_cons_succ]
      exact ih j hq (fun k r hk hr => hfirst (k + 1) r (Nat.succ_lt_succ hk) (by simpa using hr))

theorem updateProcessStatus_other (l : List Process) (pid status : Int) (i : Nat)
    (q : Process) (hq : l[i]? = some q)
    (hother : ¬ (q.pid = pid ∧ ∀ j r, j < i → l[j]? = some r → r.pid ≠ pid)) :
    (updateProcessStatus l pid status)[i]? = some q := by
  induction l generalizing i with
  | nil => simp at hq
  | cons a rest ih =>
    cases i with
    | zero =>
      simp only [List.getElem?_cons_zero, Option.some.injEq] at hq
      subst hq
      have ha : a.pid ≠ pid := fun h => hother ⟨h, fun j r hj => absurd hj (Nat.not_lt_zero j)⟩
      simp [updateProcessStatus, ha]
    | succ j =>
      simp only [List.getElem?_cons_succ] at hq
      by_cases ha : a.pid = pid
      · simp [updateProcessStatus, ha, hq]
      · simp only [updateProcessStatus, if_neg ha, List.getElem?_cons_succ]
        apply ih j hq
        rintro ⟨h1, h2⟩
        apply hother
        refine ⟨h1, ?_⟩
        intro k r hk hr
        cases k with
        | zero =>
          simp only [List.getElem?_cons_zero, Option.some.injEq] at hr
          subst hr
          exact ha
        | succ m =>
          simp only [List.getElem?_cons_succ] at hr
          exact h2 m r (by omega) hr

theorem handleSignalExecution_eq (env : Env) (s : Shell) (cmd : CmdLine)
    (verb target : String) (more : List String) (hargs : cmd.arguments = verb :: target :: more)
    (hsig : (selectSignal verb).1 ≠ 0) :
    handleSignalExecution env s cmd =
      Result.ret (selectSignal verb).1
        { processList :=
            if env.kill (atoi target.data) (selectSignal verb).1 = -1 then s.processList
            else updateProcessStatus s.processList (atoi target.data) (selectSignal verb).2
          history := s.history
          trace :=
            if env.kill (atoi target.data) (selectSignal verb).1 = -1 then
              s.trace ++ [Event.outSignal (atoi target.data)]
                ++ [Event.kill (atoi target.data) (selectSignal verb).1]
                ++ [Event.err "Failed to send signal"] ++ [Event.freeCmdLines cmd]
            else
              s.trace ++ [Event.outSignal (atoi target.data)]
                ++ [Event.kill (atoi target.data) (selectSignal verb).1]
                ++ [Event.freeCmdLines cmd] } := by
  unfold handleSignalExecution
  rw [hargs]
  simp only [hsig, ne_eq, not_false_eq_true, if_true, Shell.emit]
  split_ifs <;> rfl

/-- C4: for a command `stop p`, `wake p` or `term p` the dispatcher returns.  If
`kill` succeeds, the first job of the registry with pid `p` (the job with pid
`p` when pids are distinct) gets status Suspended, Running or Terminated
respectively and every other record is unchanged; if `kill` fails the registry
is unchanged; in both cases the jobs, their order, pids and commands are kept. -/
theorem handleSignalExecution_registry (env : Env) (s : Shell) (cmd : CmdLine)
    (verb target : String) (more : List String)
    (hargs : cmd.arguments = verb :: target :: more)
    (hverb : verb = "stop" ∨ verb = "wake" ∨ verb = "term") :
    ∃ signal status s1,
      signal = (if verb = "stop" then SIGTSTP else if verb = "wake" then SIGCONT else SIGINT)
      ∧ status = (if verb = "stop" then SUSPENDED else if verb = "wake" then RUNNING
          else TERMINATED)
      ∧ handleSignalExecution env s cmd = Result.ret signal s1
      ∧ s1.processList.length = s.processList.length
      ∧ s1.processList.map Process.pid = s.processList.map Process.pid
      ∧ s1.processList.map Process.cmd = s.processList.map Process.cmd
      ∧ (env.kill (atoi target.data) signal = -1 → s1.processList = s.processList)
      ∧ (env.kill (atoi target.data) signal ≠ -1 →
          ∀ (i : Nat) (q : Process), s.processList[i]? = some q →
            ((q.pid = atoi target.data
                ∧ (∀ (j : Nat) (r : Process), j < i → s.processList[j]? = some r →
                    r.pid ≠ atoi target.data)) →
              s1.processList[i]? = some { q with status := status })
            ∧ (¬ (q.pid = atoi target.data
                ∧ (∀ (j : Nat) (r : Process), j < i → s.processList[j]? = some r →
                    r.pid ≠ atoi target.data)) →
              s1.processList[i]? = some q)) := by
  have hsel : selectSignal verb =
      ((if verb = "stop" then SIGTSTP else if verb = "wake" then SIGCONT else SIGINT),
       (if verb = "stop" then SUSPENDED else if verb = "wake" then RUNNING else TERMINATED)) := by
    rcases hverb with h | h | h <;> subst h <;> rfl
  have hsig : (selectSignal verb).1 ≠ 0 := by
    rcases hverb with h | h | h <;> subst h <;> decide
  refine ⟨(selectSignal verb).1, (selectSignal verb).2, _, by rw [hsel], by rw [hsel],
    handleSignalExecution_eq env s cmd verb target more hargs hsig, ?_, ?_, ?_, ?_, ?_⟩
  · show (if _ then _ else _ : List Process).length = _
    split_ifs
    · rfl
    · exact length_updateProcessStatus _ _ _
  · show (if _ then _ else _ : List Process).map Process.pid = _
    split_ifs
    · rfl
    · exact map_pid_updateProcessStatus _ _ _
  · show (if _ then _ else _ : List Process).map Process.cmd = _
    split_ifs
    · rfl
    · exact map_cmd_updateProcessStatus _ _ _
  · intro hk
    show (if _ then _ else _ : List Process) = _
    rw [if_pos hk]
  · intro hk i q hq
    show (_ → (if _ then _ else _ : List Process)[i]? = _)
      ∧ (_ → (if _ then _ else _ : List Process)[i]? = _)
    rw [if_neg hk]
    exact ⟨fun h => updateProcessStatus_first_match _ _ _ i q hq h.1 h.2,
      fun h => updateProcessStatus_other _ _ _ i q hq h⟩

/-- Witness for C4: `stop 7` delivered to a registry tracking pids 9 and 7. -/
theorem handleSignalExecution_registry_witness :
    ∃ s1, handleSignalExecution calmEnv
        (shellWith [⟨plainCmd ["cat"], 9, RUNNING⟩, ⟨plainCmd ["sleep"], 7, RUNNING⟩])
        (plainCmd ["stop", "7"]) = Result.ret SIGTSTP s1
      ∧ s1.processList[1]? = some ⟨plainCmd ["sleep"], 7, SUSPENDED⟩
      ∧ s1.processList[0]? = some ⟨plainCmd ["cat"], 9, RUNNING⟩ := by
  obtain ⟨signal, status, s1, hsignal, hstatus, hret, _, _, _, _, hok⟩ :=
    handleSignalExecution_registry calmEnv
      (shellWith [⟨plainCmd ["cat"], 9, RUNNING⟩, ⟨plainCmd ["sleep"], 7, RUNNING⟩])
      (plainCmd ["stop", "7"]) "stop" "7" [] rfl (Or.inl rfl)
  have hsignal2 : signal = SIGTSTP := by rw [hsignal]; rfl
  have hstatus2 : status = SUSPENDED := by rw [hstatus]; rfl
  subst hsignal2 hstatus2
  have hkill : calmEnv.kill (atoi "7".data) SIGTSTP ≠ -1 := by decide
  have hpid : atoi "7".data = 7 := by decide
  refine ⟨s1, hret, ?_, ?_⟩
  · refine ((hok hkill 1 ⟨plainCmd ["sleep"], 7, RUNNING⟩ rfl).1 ⟨hpid.symm, ?_⟩)
    intro j r hj hr
    have hj0 : j = 0 := by omega
    subst hj0
    simp only [shellWith, List.getElem?_cons_zero, Option.some.injEq] at hr
    subst hr
    rw [hpid]
    decide
  · refine ((hok hkill 0 ⟨plainCmd ["cat"], 9, RUNNING⟩ rfl).2 ?_)
    rintro ⟨h, _⟩
    rw [hpid] at h
    exact absurd h (by decide)

theorem updateProcessStatus_keeps_terminated (l : List Process) (pid status : Int) (i : Nat)
    (q : Process) (hq : l[i]? = some q) (ht : q.status = TERMINATED)
    (hsafe : status = TERMINATED ∨ pid ≠ q.pid) :
    ∃ q1, (updateProcessStatus l pid status)[i]? = some q1 ∧ q1.status = TERMINATED := by
  by_cases hm : q.pid = pid ∧ ∀ (j : Nat) (r : Process), j < i → l[j]? = some r → r.pid ≠ pid
  · refine ⟨_, updateProcessStatus_first_match l pid status i q hq hm.1 hm.2, ?_⟩
    rcases hsafe with h | h
    · exact h
    · exact absurd hm.1.symm h
  · exact ⟨q, updateProcessStatus_other l pid status i q hq hm, ht⟩

/-- Counterexample for C9: a job recorded as Terminated becomes Running when a
`wake` for its pid is delivered, and becomes Suspended when a refresh probe
reports a stop of its process. -/
theorem terminated_job_revived :
    (handleSignalExecution calmEnv (shellWith [⟨plainCmd ["sleep"], 7, TERMINATED⟩])
        (plainCmd ["wake", "7"])).sh.processList.map Process.status = [RUNNING]
      ∧ (updateProcessList probeStopped7 [⟨plainCmd ["sleep"], 7, TERMINATED⟩]).map
          Process.status = [SUSPENDED] := by
  constructor
  · rw [handleSignalExecution_eq calmEnv _ (plainCmd ["wake", "7"]) "wake" "7" [] rfl (by decide)]
    decide
  · rw [updateProcessList_cons, updateProcessList_nil]
    decide

/-- C9 (amended): a job whose status is Terminated keeps it under `set_status`
with status Terminated or with another pid, under a `term` command, under any
command whose delivery fails or whose target is another pid, and under a refresh
whose probe of the job reports neither a stop nor a continue; and
`printProcessList` leaves no Terminated job in the registry. -/
theorem terminated_kept (env : Env) (s : Shell) (i : Nat) (q : Process)
    (hq : s.processList[i]? = some q) (ht : q.status = TERMINATED) :
    (∀ pid status : Int, (status = TERMINATED ∨ pid ≠ q.pid) →
        ∃ q1, (updateProcessStatus s.processList pid status)[i]? = some q1
          ∧ q1.status = TERMINATED)
      ∧ (∀ (cmd : CmdLine) (verb target : String) (more : List String),
          cmd.arguments = verb :: target :: more →
          (verb = "term" ∨ env.kill (atoi target.data) (selectSignal verb).1 = -1
            ∨ atoi target.data ≠ q.pid) →
          ∃ q1, (handleSignalExecution env s cmd).sh.processList[i]? = some q1
            ∧ q1.status = TERMINATED)
      ∧ (∀ probe : Nat → WaitResult,
          ((probe i).result = q.pid → 0 < q.pid →
            WIFSTOPPED (probe i).status = false ∧ (probe i).status ≠ W_CONTINUED) →
          ∃ q1, (updateProcessList probe s.processList)[i]? = some q1
            ∧ q1.status = TERMINATED)
      ∧ (∀ (probe : Nat → WaitResult) (r : Process),
          r ∈ (printProcessList probe s.processList).1 → r.status ≠ TERMINATED) := by
  refine ⟨?_, ?_, ?_, ?_⟩
  · intro pid status hsafe
    exact updateProcessStatus_keeps_terminated _ pid status i q hq ht hsafe
  · intro cmd verb target more hargs hsafe
    by_cases hsig : (selectSignal verb).1 = 0
    · have hs : handleSignalExecution env s cmd = Result.ret (selectSignal verb).1 s := by
        unfold handleSignalExecution
        rw [hargs]
        simp only [hsig, ne_eq, not_true_eq_false, if_false]
      rw [hs]
      exact ⟨q, hq, ht⟩
    · rw [handleSignalExecution_eq env s cmd verb target more hargs hsig]
      by_cases hk : env.kill (atoi target.data) (selectSignal verb).1 = -1
      · simp only [Result.sh, if_pos hk]
        exact ⟨q, hq, ht⟩
      · simp only [Result.sh, if_neg hk]
        apply updateProcessStatus_keeps_terminated _ _ _ i q hq ht
        rcases hsafe with h | h | h
        · left
          subst h
          rfl
        · exact absurd h hk
        · exact Or.inr h
  · intro probe hprobe
    refine ⟨_, updateProcessList_getElem? probe _ i q hq, ?_⟩
    show statusAfterProbe (probe i) q = TERMINATED
    unfold statusAfterProbe
    split_ifs with h1 h2 h3 h4 h5 h6
    · rfl
    · rfl
    · rfl
    · exact absurd h5 (by rw [(hprobe h2.2 (by omega)).1]; decide)
    · exact absurd h6 (hprobe h2.2 (by omega)).2
    · exact ht
    · exact ht
  · intro probe r hr
    have hfst : (printProcessList probe s.processList).1
        = (updateProcessList probe s.processList).filter
            (fun p => decide (p.status ≠ TERMINATED)) := by
      simp only [printProcessList, printProcessLoop_fst, List.nil_append]
    rw [hfst, List.mem_filter] at hr
    simpa using hr.2

/-- Witness for C9 (amended): a Terminated job stays Terminated under `term 7`. -/
theorem terminated_kept_witness :
    ∃ q1, (handleSignalExecution calmEnv (shellWith [⟨plainCmd ["sleep"], 7, TERMINATED⟩])
        (plainCmd ["term", "7"])).sh.processList[0]? = some q1 ∧ q1.status = TERMINATED :=
  (terminated_kept calmEnv (shellWith [⟨plainCmd ["sleep"], 7, TERMINATED⟩]) 0
    ⟨plainCmd ["sleep"], 7, TERMINATED⟩ rfl rfl).2.1 (plainCmd ["term", "7"]) "term" "7" [] rfl
    (Or.inl rfl)

/-! ## Pipeline executor and dispatcher: proofs -/

theorem forkCount_append (a b : List Event) : forkCount (a ++ b) = forkCount a + forkCount b := by
  induction a with
  | nil => simp [forkCount]
  | cons e rest ih =>
    cases e <;> simp [forkCount, ih]
    omega

theorem pipeCount_append (a b : List Event) : pipeCount (a ++ b) = pipeCount a + pipeCount b := by
  induction a with
  | nil => simp [pipeCount]
  | cons e rest ih =>
    cases e <;> simp [pipeCount, ih]
    omega

theorem outputRedirect_setNextNull (c : CmdLine) :
    c.setNextNull.outputRedirect = c.outputRedirect := by
  cases c
  rfl

theorem inputRedirect_setIdx (c : CmdLine) (v : Int) :
    (c.setIdx v).inputRedirect = c.inputRedirect := by
  cases c
  rfl

/-- C7: when `left` has an output redirection or `right` has an input
redirection, `handlePipeExecution` returns 1 after reporting the error and
releasing both descriptions: no `pipe`, no `fork`, and the registry and the
history are unchanged. -/
theorem handlePipeExecution_rejects (env : Env) (s : Shell) (left right : CmdLine)
    (h : left.outputRedirect.isSome = true ∨ right.inputRedirect.isSome = true) :
    ∃ s1, handlePipeExecution env s left right = Result.ret 1 s1
      ∧ s1.processList = s.processList
      ∧ s1.history = s.history
      ∧ s1.trace = s.trace ++ [Event.err "Error: Invalid redirection with pipes\n",
          Event.freeCmdLines left.setNextNull, Event.freeCmdLines (right.setIdx 0)]
      ∧ pipeCount s1.trace = pipeCount s.trace
      ∧ forkCount s1.trace = forkCount s.trace := by
  have hc : left.setNextNull.outputRedirect.isSome = true
      ∨ (right.setIdx 0).inputRedirect.isSome = true := by
    rw [outputRedirect_setNextNull, inputRedirect_setIdx]
    exact h
  refine ⟨((s.emit (Event.err "Error: Invalid redirection with pipes\n")).emit
    (Event.freeCmdLines left.setNextNull)).emit (Event.freeCmdLines (right.setIdx 0)),
    ?_, rfl, rfl, ?_, ?_, ?_⟩
  · unfold handlePipeExecution
    simp only [hc, if_true]
  · simp [Shell.emit]
  · simp [Shell.emit, pipeCount_append, pipeCount]
  · simp [Shell.emit, forkCount_append, forkCount]

/-- Witness for C7: `ls > out.txt | wc`. -/
theorem handlePipeExecution_rejects_witness :
    ∃ s1, handlePipeExecution calmEnv (shellWith [⟨plainCmd ["sleep"], 7, RUNNING⟩])
        (CmdLine.mk ["ls"] none (some "out.txt") true 0 (some (plainCmd ["wc"])))
        (plainCmd ["wc"]) = Result.ret 1 s1
      ∧ s1.processList = (shellWith [⟨plainCmd ["sleep"], 7, RUNNING⟩]).processList
      ∧ forkCount s1.trace = 0 ∧ pipeCount s1.trace = 0 := by
  obtain ⟨s1, hret, hl, _, _, hp, hf⟩ :=
    handlePipeExecution_rejects calmEnv (shellWith [⟨plainCmd ["sleep"], 7, RUNNING⟩])
      (CmdLine.mk ["ls"] none (some "out.txt") true 0 (some (plainCmd ["wc"])))
      (plainCmd ["wc"]) (Or.inl rfl)
  exact ⟨s1, hret, hl, hf, hp⟩

theorem Result.bind_history {α β : Type} (r : Result α) (f : α → Shell → Result β)
    (h : History) (hr : r.sh.history = h)
    (hf : ∀ v s, s.history = h → (f v s).sh.history = h) : (r.bind f).sh.history = h := by
  cases r with
  | ret v s => exact hf v s hr
  | halt how s => exact hr

theorem handle_redirection_history (env : Env) (s : Shell) (c : CmdLine) :
    (handle_redirection env s c).sh.history = s.history := by
  unfold handle_redirection
  apply Result.bind_history
  · cases c.inputRedirect with
    | none => rfl
    | some path =>
      simp only
      split_ifs <;> rfl
  · intro _ s1 hs1
    cases c.outputRedirect with
    | none => exact hs1
    | some path =>
      simp only
      split_ifs <;> exact hs1

theorem execOrExit_history (env : Env) (s : Shell) (c : CmdLine) (message : String) :
    (execOrExit env s c message).sh.history = s.history := by
  unfold execOrExit
  simp only
  split_ifs <;> rfl

theorem handle_cd_history (env : Env) (s : Shell) (c : CmdLine) :
    (handle_cd env s c).sh.history = s.history := by
  unfold handle_cd
  split
  · rfl
  · split
    · simp only [Result.sh, Shell.emit]
      split
      · rfl
      · split <;> rfl
    · rfl

theorem handleSignalExecution_history (env : Env) (s : Shell) (c : CmdLine) :
    (handleSignalExecution env s c).sh.history = s.history := by
  unfold handleSignalExecution
  repeat' first
    | rfl
    | split
    | dsimp only

theorem handlePipeExecution_history (env : Env) (s : Shell) (left right : CmdLine) :
    (handlePipeExecution env s left right).sh.history = s.history := by
  unfold handlePipeExecution
  simp only
  split_ifs
  · rfl
  · rfl
  · rfl
  · apply Result.bind_history
    · exact handle_redirection_history _ _ _
    · intro _ s3 hs3
      apply Result.bind_history
      · rw [execOrExit_history]
        exact hs3
      · intro _ s5 hs5
        exact hs5
  · rfl
  · apply Result.bind_history
    · exact handle_redirection_history _ _ _
    · intro _ s3 hs3
      apply Result.bind_history
      · rw [execOrExit_history]
        exact hs3
      · intro _ s5 hs5
        exact hs5
  · rfl
  · rfl
  · rfl
  · rfl

theorem execute_history (env : Env) (s : Shell) (c : CmdLine) :
    (execute env s c).sh.history = s.history := by
  unfold execute
  apply Result.bind_history
  · exact handle_cd_history env s c
  · intro isCd s1 hs1
    apply Result.bind_history (h := s.history)
    · split
      · exact hs1
      · rw [handleSignalExecution_history]
        exact hs1
    · intro handled s2 hs2
      repeat' first
        | exact hs2
        | (rw [handlePipeExecution_history]; exact hs2)
        | (rw [handle_redirection_history]; exact hs2)
        | (intro _ s3 hs3; first | exact hs3 | (rw [execOrExit_history]; exact hs3))
        | apply Result.bind_history (h := s.history)
        | split
        | dsimp only

/-! ## History recall: proofs -/

theorem recall_line_facts (i : Nat) (h1 : 1 ≤ i) (h2 : i ≤ 10) :
    ("!" ++ toString i).data.isEmpty = false
      ∧ ("!" ++ toString i) ≠ "quit"
      ∧ ("!" ++ toString i).data.head? = some (Char.ofNat 33)
      ∧ (("!" ++ toString i).data.tail.head?.map isdigit).getD false = true
      ∧ atoi ("!" ++ toString i).data.tail = (i : Int) := by
  interval_cases i <;> decide

theorem mainStep_recall_history (env : Env) (s : Shell) (hw : s.history.WF) (i : Nat)
    (h1 : 1 ≤ i) (h2 : (i : Int) ≤ s.history.history_count) (line : CmdLine)
    (more : List String) (hparse : env.parseCmdLines ("!" ++ toString i) = some line)
    (hargs : line.arguments = ("!" ++ toString i) :: more) :
    ∃ text, s.history.entries[i - 1]? = some text
      ∧ (mainStep env s ("!" ++ toString i)).sh.history = addHistoryEntry s.history text := by
  have h10 : i ≤ 10 := by
    have := hw.2
    simp only [HISTLEN] at this
    omega
  obtain ⟨f1, f2, f3, f4, f5⟩ := recall_line_facts i h1 h10
  obtain ⟨text, ht, hg⟩ := getHistoryEntry_valid s hw (i : Int) (by omega) h2
  have hidx : ((i : Int) - 1).toNat = i - 1 := by omega
  rw [hidx] at ht
  refine ⟨text, ht, ?_⟩
  unfold mainStep
  rw [if_neg (by rw [f1]; decide), if_neg f2, hparse]
  simp only [hargs]
  rw [if_pos f3, if_pos f4, f5, hg]
  simp only
  cases env.parseCmdLines text with
  | none => rfl
  | some redo =>
    simp only
    apply Result.bind_history
    · rw [execute_history]
    · intro _ s2 hs2
      exact hs2

/-- C8: on a well-formed history and for a valid index `i`, processing the line
`!i` leaves the history that appending the text of entry `i` gives (the `!i`
line is not recorded).  Below capacity the counter grows by one, entries
`1..count` keep their text and index, and entry `count + 1` is the recalled
text. -/
theorem mainStep_recall (env : Env) (s : Shell) (hw : s.history.WF) (i : Nat)
    (h1 : 1 ≤ i) (h2 : (i : Int) ≤ s.history.history_count) (line : CmdLine)
    (more : List String) (hparse : env.parseCmdLines ("!" ++ toString i) = some line)
    (hargs : line.arguments = ("!" ++ toString i) :: more) :
    ∃ text, (getHistoryEntry s (i : Int)).1 = some text
      ∧ (mainStep env s ("!" ++ toString i)).sh.history = addHistoryEntry s.history text
      ∧ (s.history.history_count < HISTLEN →
          (mainStep env s ("!" ++ toString i)).sh.history.history_count
              = s.history.history_count + 1
            ∧ (∀ j : Int, 1 ≤ j → j ≤ s.history.history_count →
                (getHistoryEntry (mainStep env s ("!" ++ toString i)).sh j).1
                  = (getHistoryEntry s j).1)
            ∧ (getHistoryEntry (mainStep env s ("!" ++ toString i)).sh
                (s.history.history_count + 1)).1 = some text) := by
  obtain ⟨text, _, hm⟩ := mainStep_recall_history env s hw i h1 h2 line more hparse hargs
  obtain ⟨text2, ht2, hg⟩ := getHistoryEntry_valid s hw (i : Int) (by omega) h2
  have hidx : ((i : Int) - 1).toNat = i - 1 := by omega
  rw [hidx] at ht2
  have htext : text2 = text := by
    rename_i ht
    rw [ht] at ht2
    exact (Option.some.inj ht2).symm
  subst htext
  refine ⟨text2, by rw [hg], hm, ?_⟩
  intro hcap
  have hc := hw.1
  simp only [HISTLEN] at hcap
  have hlen : s.history.entries.length + 1 - 10 = 0 := by omega
  have hmin : min (s.history.entries.length + 1) 10 = s.history.entries.length + 1 := by omega
  have hnew : (mainStep env s ("!" ++ toString i)).sh.history
      = ⟨s.history.entries ++ [text2], (s.history.entries.length : Int) + 1⟩ := by
    rw [hm, addHistoryEntry_eq s.history text2 hw, hlen, hmin]
    simp
  have hw2 : (mainStep env s ("!" ++ toString i)).sh.history.WF := by
    rw [hm]
    exact History.WF_addHistoryEntry _ _ hw
  refine ⟨by rw [hnew, hc], ?_, ?_⟩
  · intro j hj1 hj2
    obtain ⟨a, ha, hga⟩ := getHistoryEntry_valid s hw j hj1 hj2
    obtain ⟨b, hb, hgb⟩ := getHistoryEntry_valid (mainStep env s ("!" ++ toString i)).sh hw2 j hj1
      (by rw [hnew]; simp only; omega)
    rw [hga, hgb]
    rw [hnew] at hb
    simp only at hb
    rw [List.getElem?_append_left (by omega), ha] at hb
    exact congrArg some (Option.some.inj hb).symm
  · obtain ⟨b, hb, hgb⟩ := getHistoryEntry_valid (mainStep env s ("!" ++ toString i)).sh hw2
      (s.history.history_count + 1) (by omega) (by rw [hnew]; simp only; omega)
    rw [hgb]
    rw [hnew] at hb
    simp only at hb
    have hk : (s.history.history_count + 1 - 1).toNat = s.history.entries.length := by omega
    rw [hk, List.getElem?_append_right (le_refl _)] at hb
    simp only [Nat.sub_self, List.getElem?_cons_zero] at hb
    exact congrArg some (Option.some.inj hb).symm

/-- Witness for C8: after the lines `ls` and `pwd`, the line `!1` leaves entry 1
equal to `ls` and makes entry 3 equal to `ls`. -/
theorem mainStep_recall_witness :
    (mainStep calmEnv (mainStep calmEnv (shellWith []) "ls").sh "pwd").sh.history
        = ⟨["ls", "pwd"], 2⟩
      ∧ (getHistoryEntry (mainStep calmEnv
          (mainStep calmEnv (mainStep calmEnv (shellWith []) "ls").sh "pwd").sh "!1").sh 1).1
        = some "ls"
      ∧ (getHistoryEntry (mainStep calmEnv
          (mainStep calmEnv (mainStep calmEnv (shellWith []) "ls").sh "pwd").sh "!1").sh 3).1
        = some "ls" := by
  have hh : (mainStep calmEnv (mainStep calmEnv (shellWith []) "ls").sh "pwd").sh.history
      = ⟨["ls", "pwd"], 2⟩ := by decide
  have hw : (mainStep calmEnv (mainStep calmEnv (shellWith []) "ls").sh "pwd").sh.history.WF := by
    rw [hh]
    unfold History.WF
    decide
  obtain ⟨text, ht, _, hcap⟩ :=
    mainStep_recall calmEnv (mainStep calmEnv (mainStep calmEnv (shellWith []) "ls").sh "pwd").sh
      hw 1 (le_refl 1) (by rw [hh]; decide) (plainCmd ["!1"]) [] rfl rfl
  obtain ⟨_, hkeep, hlast⟩ := hcap (by rw [hh]; decide)
  have hfirst : (getHistoryEntry
      (mainStep calmEnv (mainStep calmEnv (shellWith []) "ls").sh "pwd").sh 1).1 = some "ls" := by
    unfold getHistoryEntry
    rw [hh]
    rfl
  have htext : text = "ls" := by
    have h := ht
    simp only [Nat.cast_one] at h
    rw [hfirst] at h
    exact (Option.some.inj h).symm
  have e : ("!" ++ toString 1 : String) = "!1" := by decide
  rw [e] at hkeep hlast
  refine ⟨hh, ?_, ?_⟩
  · rw [hkeep 1 (le_refl 1) (by rw [hh]; decide)]
    exact hfirst
  · rw [hh] at hlast
    rw [htext] at hlast
    exact hlast

/-! ## Execution dispatcher: proofs -/

theorem handle_cd_other (env : Env) (s : Shell) (cmd : CmdLine) (name : String)
    (rest : List String) (hargs : cmd.arguments = name :: rest) (hne : name ≠ "cd") :
    handle_cd env s cmd = Result.ret 0 s := by
  unfold handle_cd
  rw [hargs]
  simp only [hne, if_false]

theorem handle_cd_cd (env : Env) (s : Shell) (cmd : CmdLine) (rest : List String)
    (hargs : cmd.arguments = "cd" :: rest) :
    ∃ s1, handle_cd env s cmd = Result.ret 1 s1 ∧ s1.processList = s.processList
      ∧ forkCount s1.trace = forkCount s.trace := by
  unfold handle_cd
  rw [hargs]
  simp only [if_true]
  refine ⟨_, rfl, ?_, ?_⟩
  · split_ifs
    · rfl
    · cases rest <;> rfl
  · split_ifs
    · simp [Shell.emit, forkCount_append, forkCount]
    · cases rest <;> simp [Shell.emit, forkCount_append, forkCount]

theorem handleSignalExecution_other (env : Env) (s : Shell) (cmd : CmdLine) (name : String)
    (rest : List String) (hargs : cmd.arguments = name :: rest) (h1 : name ≠ "stop")
    (h2 : name ≠ "wake") (h3 : name ≠ "term") :
    handleSignalExecution env s cmd = Result.ret 0 s := by
  unfold handleSignalExecution
  rw [hargs]
  simp [selectSignal, h1, h2, h3]

theorem handleSignalExecution_frame (env : Env) (s : Shell) (cmd : CmdLine) :
    forkCount (handleSignalExecution env s cmd).sh.trace = forkCount s.trace
      ∧ (handleSignalExecution env s cmd).sh.processList.map Process.pid
        = s.processList.map Process.pid
      ∧ (handleSignalExecution env s cmd).sh.processList.map Process.cmd
        = s.processList.map Process.cmd := by
  cases hargs : cmd.arguments with
  | nil =>
    unfold handleSignalExecution
    rw [hargs]
    exact ⟨rfl, rfl, rfl⟩
  | cons verb rest =>
    by_cases hsig : (selectSignal verb).1 = 0
    · have hs : (handleSignalExecution env s cmd).sh = s := by
        unfold handleSignalExecution
        rw [hargs]
        simp only [hsig, ne_eq, not_true_eq_false, if_false, Result.sh]
      rw [hs]
      exact ⟨rfl, rfl, rfl⟩
    · cases rest with
      | nil =>
        have hs : (handleSignalExecution env s cmd).sh = s := by
          unfold handleSignalExecution
          rw [hargs]
          simp only [hsig, ne_eq, not_false_eq_true, if_true, Result.sh]
        rw [hs]
        exact ⟨rfl, rfl, rfl⟩
      | cons target more =>
        rw [handleSignalExecution_eq env s cmd verb target more hargs hsig]
        by_cases hk : env.kill (atoi target.data) (selectSignal verb).1 = -1
        · simp only [Result.sh, if_pos hk]
          simp [forkCount_append, forkCount]
        · simp only [Result.sh, if_neg hk, map_pid_updateProcessStatus,
            map_cmd_updateProcessStatus]
          simp [forkCount_append, forkCount]

theorem Shell.extends_emit (before : List Event) (s : Shell) (e : Event)
    (h : s.Extends before) : (s.emit e).Extends before := by
  obtain ⟨tail, ht⟩ := h
  exact ⟨tail ++ [e], by simp only [Shell.emit, ht, List.append_assoc]⟩

theorem Result.bind_extends {α β : Type} (r : Result α) (f : α → Shell → Result β)
    (before : List Event) (hr : r.sh.Extends before)
    (hf : ∀ v s, s.Extends before → (f v s).sh.Extends before) :
    (r.bind f).sh.Extends before := by
  cases r with
  | ret v s => exact hf v s hr
  | halt how s => exact hr

theorem handle_redirection_extends (env : Env) (s : Shell) (c : CmdLine)
    (before : List Event) (h : s.Extends before) :
    (handle_redirection env s c).sh.Extends before := by
  unfold handle_redirection
  apply Result.bind_extends
  · cases c.inputRedirect with
    | none => exact h
    | some path =>
      dsimp only
      split
      · exact Shell.extends_emit _ _ _ (Shell.extends_emit _ _ _ h)
      · split
        · exact Shell.extends_emit _ _ _ (Shell.extends_emit _ _ _ (Shell.extends_emit _ _ _ h))
        · exact Shell.extends_emit _ _ _ (Shell.extends_emit _ _ _ (Shell.extends_emit _ _ _ h))
  · intro _ s1 h1
    cases c.outputRedirect with
    | none => exact h1
    | some path =>
      dsimp only
      split
      · exact Shell.extends_emit _ _ _ (Shell.extends_emit _ _ _ h1)
      · split
        · exact Shell.extends_emit _ _ _ (Shell.extends_emit _ _ _ (Shell.extends_emit _ _ _ h1))
        · exact Shell.extends_emit _ _ _ (Shell.extends_emit _ _ _ (Shell.extends_emit _ _ _ h1))

theorem execOrExit_extends (env : Env) (s : Shell) (c : CmdLine) (message : String)
    (before : List Event) (h : s.Extends before) :
    (execOrExit env s c message).sh.Extends before := by
  unfold execOrExit
  dsimp only
  split
  · exact Shell.extends_emit _ _ _ (Shell.extends_emit _ _ _ h)
  · exact Shell.extends_emit _ _ _ h

theorem execute_not_builtin (env : Env) (s : Shell) (cmd : CmdLine) (name : String)
    (rest : List String) (hargs : cmd.arguments = name :: rest) (h0 : name ≠ "cd")
    (h1 : name ≠ "stop") (h2 : name ≠ "wake") (h3 : name ≠ "term") :
    execute env s cmd =
      match cmd.next with
      | some right =>
        (handlePipeExecution env s cmd right).bind fun _ s3 => Result.ret () s3
      | none =>
        if name = "procs" then
          Result.ret ()
            { processList := (printProcessList env.probe s.processList).1
              history := s.history
              trace := s.trace ++ (printProcessList env.probe s.processList).2
                ++ [Event.freeCmdLines cmd] }
        else if name = "history" then
          Result.ret () ((printHistory s).emit (Event.freeCmdLines cmd))
        else if env.fork 0 = -1 then
          Result.halt (Halt.exit 1)
            ((s.emit (Event.fork (env.fork 0))).emit (Event.err "fork creation failed"))
        else if env.fork 0 = 0 then
          (handle_redirection env (s.emit (Event.fork (env.fork 0))) cmd).bind fun _ s4 =>
            execOrExit env s4 cmd "The execution failed"
        else if cmd.blocking then
          if env.waitpid (env.fork 0) = -1 then
            Result.ret ()
              { processList := addProcess s.processList cmd (env.fork 0)
                history := s.history
                trace := s.trace ++ [Event.fork (env.fork 0)]
                  ++ [Event.waitpid (env.fork 0)] ++ [Event.err "waitpid failed"] }
          else
            Result.ret ()
              { processList := addProcess s.processList cmd (env.fork 0)
                history := s.history
                trace := s.trace ++ [Event.fork (env.fork 0)]
                  ++ [Event.waitpid (env.fork 0)] }
        else
          Result.ret ()
            { processList := addProcess s.processList cmd (env.fork 0)
              history := s.history
              trace := s.trace ++ [Event.fork (env.fork 0)] } := by
  unfold execute
  rw [handle_cd_other env s cmd name rest hargs h0]
  simp only [Result.bind, ne_eq, not_true_eq_false, if_false]
  rw [handleSignalExecution_other env s cmd name rest hargs h1 h2 h3]
  simp only [not_true_eq_false, if_false, hargs, Shell.emit]

/-- C6: `execute` routes a command with first argument `name` to the first
matching handler in the order cd, stop/wake/term, pipeline, procs, history,
external program.  A `cd`, `stop`, `wake` or `term` command calls no `fork` and
keeps the jobs of the registry whatever its pipeline link is; any other command
with a link goes to `handlePipeExecution`, also when its name is `procs` or
`history`; without a link `procs` runs `printProcessList`, `history` runs
`printHistory`, and every other name forks a child, the parent registering it
as the newest job. -/
theorem execute_dispatch (env : Env) (s : Shell) (cmd : CmdLine) (name : String)
    (rest : List String) (hargs : cmd.arguments = name :: rest) :
    (name = "cd" →
        ∃ s1, handle_cd env s cmd = Result.ret 1 s1 ∧ execute env s cmd = Result.ret () s1
          ∧ forkCount s1.trace = forkCount s.trace ∧ s1.processList = s.processList)
      ∧ (name = "stop" ∨ name = "wake" ∨ name = "term" →
        execute env s cmd = (handleSignalExecution env s cmd).bind (fun _ s1 => Result.ret () s1)
          ∧ forkCount (execute env s cmd).sh.trace = forkCount s.trace
          ∧ (execute env s cmd).sh.processList.map Process.pid = s.processList.map Process.pid
          ∧ (execute env s cmd).sh.processList.map Process.cmd = s.processList.map Process.cmd)
      ∧ (name ≠ "cd" → name ≠ "stop" → name ≠ "wake" → name ≠ "term" →
        (∀ right, cmd.next = some right →
            execute env s cmd
              = (handlePipeExecution env s cmd right).bind (fun _ s1 => Result.ret () s1))
          ∧ (cmd.next = none → name = "procs" →
            execute env s cmd = Result.ret ()
              { processList := (printProcessList env.probe s.processList).1
                history := s.history
                trace := s.trace ++ (printProcessList env.probe s.processList).2
                  ++ [Event.freeCmdLines cmd] })
          ∧ (cmd.next = none → name = "history" →
            execute env s cmd = Result.ret () ((printHistory s).emit (Event.freeCmdLines cmd)))
          ∧ (cmd.next = none → name ≠ "procs" → name ≠ "history" →
            (∃ tail, (execute env s cmd).sh.trace = s.trace ++ Event.fork (env.fork 0) :: tail)
              ∧ (0 < env.fork 0 →
                (execute env s cmd).sh.processList
                  = ⟨cmd, env.fork 0, RUNNING⟩ :: s.processList))) := by
  refine ⟨?_, ?_, ?_⟩
  · intro hname
    subst hname
    obtain ⟨s1, h1, hl, hf⟩ := handle_cd_cd env s cmd rest hargs
    refine ⟨s1, h1, ?_, hf, hl⟩
    unfold execute
    rw [h1]
    simp [Result.bind]
  · intro hname
    have hcd : name ≠ "cd" := by
      rcases hname with h | h | h <;> subst h <;> decide
    have hsig : (selectSignal name).1 ≠ 0 := by
      rcases hname with h | h | h <;> subst h <;> decide
    have hexec : execute env s cmd
        = (handleSignalExecution env s cmd).bind (fun _ s1 => Result.ret () s1) := by
      unfold execute
      rw [handle_cd_other env s cmd name rest hargs hcd]
      simp only [Result.bind, ne_eq, not_true_eq_false, if_false]
      cases rest with
      | nil =>
        have hcrash : handleSignalExecution env s cmd = Result.halt Halt.crash s := by
          unfold handleSignalExecution
          rw [hargs]
          simp only [hsig, ne_eq, not_false_eq_true, if_true]
        rw [hcrash]
      | cons target more =>
        rw [handleSignalExecution_eq env s cmd name target more hargs hsig]
        simp only [hsig, ne_eq, not_false_eq_true, if_true]
    have hsh : (execute env s cmd).sh = (handleSignalExecution env s cmd).sh := by
      rw [hexec]
      cases handleSignalExecution env s cmd <;> rfl
    refine ⟨hexec, ?_⟩
    rw [hsh]
    exact handleSignalExecution_frame env s cmd
  · intro h0 h1 h2 h3
    have hex := execute_not_builtin env s cmd name rest hargs h0 h1 h2 h3
    refine ⟨?_, ?_, ?_, ?_⟩
    · intro right hright
      rw [hex, hright]
    · intro hnone hprocs
      rw [hex, hnone]
      simp only [hprocs, if_true]
    · intro hnone hhist
      have hp : name ≠ "procs" := by
        subst hhist
        decide
      rw [hex, hnone]
      simp only
      rw [if_neg hp, if_pos hhist]
    · intro hnone hp hh
      rw [hex, hnone]
      simp only [hp, hh, if_false]
      constructor
      · by_cases hf1 : env.fork 0 = -1
        · rw [if_pos hf1]
          exact ⟨[Event.err "fork creation failed"], by simp [Result.sh, Shell.emit]⟩
        · rw [if_neg hf1]
          by_cases hf0 : env.fork 0 = 0
          · rw [if_pos hf0]
            have hext : ((handle_redirection env (s.emit (Event.fork (env.fork 0))) cmd).bind
                fun _ s4 => execOrExit env s4 cmd "The execution failed").sh.Extends
                (s.trace ++ [Event.fork (env.fork 0)]) := by
              apply Result.bind_extends
              · exact handle_redirection_extends _ _ _ _ ⟨[], by simp [Shell.emit]⟩
              · intro _ s4 h4
                exact execOrExit_extends _ _ _ _ _ h4
            obtain ⟨tail, ht⟩ := hext
            exact ⟨tail, by rw [ht]; simp⟩
          · rw [if_neg hf0]
            split_ifs
            · exact ⟨[Event.waitpid (env.fork 0), Event.err "waitpid failed"], by simp [Result.sh]⟩
            · exact ⟨[Event.waitpid (env.fork 0)], by simp [Result.sh]⟩
            · exact ⟨[], by simp [Result.sh]⟩
      · intro hpos
        have hf1 : env.fork 0 ≠ -1 := by omega
        have hf0 : env.fork 0 ≠ 0 := by omega
        rw [if_neg hf1, if_neg hf0]
        have hadd : addProcess s.processList cmd (env.fork 0)
            = ⟨cmd, env.fork 0, RUNNING⟩ :: s.processList := by
          unfold addProcess
          cases s.processList <;> rfl
        split_ifs <;> simp only [Result.sh, hadd]

/-- Witness for C6: `procs` with a pipeline link goes to the pipeline executor,
which forks twice and registers both stages. -/
theorem execute_dispatch_witness :
    execute calmEnv (shellWith [])
        (CmdLine.mk ["procs"] none none true 0 (some (plainCmd ["wc"])))
      = (handlePipeExecution calmEnv (shellWith [])
          (CmdLine.mk ["procs"] none none true 0 (some (plainCmd ["wc"])))
          (plainCmd ["wc"])).bind (fun _ s1 => Result.ret () s1) :=
  ((execute_dispatch calmEnv (shellWith [])
    (CmdLine.mk ["procs"] none none true 0 (some (plainCmd ["wc"]))) "procs" [] rfl).2.2
    (by decide) (by decide) (by decide) (by decide)).1 (plainCmd ["wc"]) rfl

end MyShell
